import Mathlib

/-!
Verification development for the LensFormat codec (src/lens_format/core.pyx).

The file shallowly embeds the primary encoder (FastEncoder._encode_recursive,
core.pyx lines 80-165) and the primary iterative decoder
(FastDecoder.decode_all, core.pyx lines 170-339) of the repository.

Modelling conventions:
- Bytes are Nat below 256; buffers are List Nat.  The decoder's cursor
  (self.pos into self.buffer) is modelled by carrying the remaining suffix
  buffer[pos:], since every read in decode_all moves the cursor forward by
  the number of bytes consumed.  The single corner where the real cursor can
  move backwards (a payload-length varint at or above 2^63, whose cast to
  Py_ssize_t is negative so that self.pos += ln rewinds) is flagged with the
  distinguished outcome DRes.ub instead of tracing the rewound scan.
- Machine integers are Nat/Int with explicit reductions mod 2^64; uint64_t
  values are Nat kept below 2^64, int64_t / Py_ssize_t values are Int.
- Python str values are represented by their UTF-8 byte sequences; the
  strict UTF-8 validation done by PyUnicode_DecodeUTF8 is elided (UTF-8
  encode/decode is a bijection on the values the encoder produces).
- Python datetime values are represented by their signed count of
  milliseconds since the epoch; datetime.fromtimestamp(x / 1000.0, UTC) is
  modelled at millisecond precision.
- Reference-count operations (Py_INCREF / Py_XDECREF and the owned flag of
  _fill_container) are elided: they do not affect the value semantics.
- Python object equality used by PyDict_SetItem / PySet_Add is modelled by
  the structural equality pyBeq below (an approximation: e.g. Python's
  1 == True is not reflected; no claim in this development depends on it).
- Accesses performed without a bounds check (the decoder is compiled with
  boundscheck=False: buffer[pos] on the dict-key path, symbols[i] list
  accesses, the unchecked T_EXT payload slice, and PyList_SET_ITEM /
  PyTuple_SET_ITEM past the end of a container) are modelled by the
  outcome DRes.ub naming the access, since the C code dereferences or
  writes out of bounds there.
-/

/-- Python value trees transported by the codec, as dispatched on by
FastEncoder._encode_recursive.  vobj stands for an arbitrary non-builtin
Python object (identified by an opaque id), the only values that reach the
encoder's extension fallthrough; vmemview is the memoryview slice type the
decoder produces in zero-copy mode; vhole marks a NULL slot of a partially
filled PyList/PyTuple (never present in well-formed results). -/
inductive PyValue where
  | vnull
  | vbool (b : Bool)
  | vint (n : Int)
  | vfloat (bits : Nat)
  | vstr (utf8 : List Nat)
  | vtime (ms : Int)
  | vlist (xs : List PyValue)
  | vtup (xs : List PyValue)
  | vset (xs : List PyValue)
  | vdict (ps : List (PyValue × PyValue))
  | vbytes (bs : List Nat)
  | vbytearray (bs : List Nat)
  | vmemview (bs : List Nat)
  | vobj (oid : Nat)
  | vhole

mutual

/-- Structural equality on modelled Python values (model of the == used by
PyDict_SetItem key lookup and PySet_Add deduplication). -/
def pyBeq : PyValue → PyValue → Bool
  | .vnull, .vnull => true
  | .vbool a, .vbool b => a == b
  | .vint a, .vint b => a == b
  | .vfloat a, .vfloat b => a == b
  | .vstr a, .vstr b => a == b
  | .vtime a, .vtime b => a == b
  | .vlist xs, .vlist ys => pyListBeq xs ys
  | .vtup xs, .vtup ys => pyListBeq xs ys
  | .vset xs, .vset ys => pyListBeq xs ys
  | .vdict ps, .vdict qs => pyPairsBeq ps qs
  | .vbytes a, .vbytes b => a == b
  | .vbytearray a, .vbytearray b => a == b
  | .vmemview a, .vmemview b => a == b
  | .vobj a, .vobj b => a == b
  | .vhole, .vhole => true
  | _, _ => false

/-- Element-wise equality of value sequences. -/
def pyListBeq : List PyValue → List PyValue → Bool
  | [], [] => true
  | x :: xs, y :: ys => pyBeq x y && pyListBeq xs ys
  | _, _ => false

/-- Pair-wise equality of key/value sequences. -/
def pyPairsBeq : List (PyValue × PyValue) → List (PyValue × PyValue) → Bool
  | [], [] => true
  | (k1, v1) :: xs, (k2, v2) :: ys => pyBeq k1 k2 && pyBeq v1 v2 && pyPairsBeq xs ys
  | _, _ => false

end

/-- Reinterpret a uint64 bit pattern as a signed int64 (the C casts from
uint64_t to int64_t / Py_ssize_t in core.pyx). -/
def toSigned64 (u : Nat) : Int :=
  if u < 2 ^ 63 then (u : Int) else (u : Int) - 2 ^ 64

/-- Model of c_zigzag_encode (core.pyx line 54): uint64 result of
(n << 1) ^ (n >> 63) on an int64, expressed on the two's-complement bit
pattern u of n: the left shift wraps mod 2^64 and the arithmetic right
shift by 63 is all-ones exactly when the sign bit of u is set. -/
def zigzagEncode (n : Int) : Nat :=
  (2 * (n % (2 ^ 64 : Int)).toNat % 2 ^ 64) ^^^
    (if 2 ^ 63 ≤ (n % (2 ^ 64 : Int)).toNat then 2 ^ 64 - 1 else 0)

/-- Model of c_zigzag_decode (core.pyx line 51): (n >> 1) ^ -(n & 1) on a
uint64, reinterpreted as int64 at the Python boundary. -/
def zigzagDecode (u : Nat) : Int :=
  toSigned64 ((u >>> 1) ^^^ (if u &&& 1 = 1 then 2 ^ 64 - 1 else 0))

/-- Loop body of FastEncoder._write_varint (core.pyx lines 91-95): while
n >= 0x80 emit (n & 0x7F) | 0x80 and shift n right by 7; then emit n.
The explicit fuel bounds the loop; a uint64 argument needs at most 10
iterations, so the fuel-0 fallback is unreachable from writeVarint. -/
def writeVarintGo : Nat → Nat → List Nat
  | 0, n => [n]
  | f + 1, n => if 128 ≤ n then (n % 128 + 128) :: writeVarintGo f (n / 128) else [n]

/-- FastEncoder._write_varint on a uint64 value. -/
def writeVarint (n : Nat) : List Nat := writeVarintGo 10 n

/-- Loop body of FastDecoder._read_varint (core.pyx lines 193-206), on the
remaining input suffix.  Each iteration checks for end of buffer, ORs
(b & 0x7F) << shift into the uint64 accumulator (bits at or above 2^64 are
discarded by the machine OR, hence the mod), returns when the continuation
bit is clear, and raises varint overflow when the shift counter would
exceed 63.  The shift counter reaches at most 63, so at most 10 bytes are
consumed and the fuel-0 fallback is unreachable from readVarint. -/
def readVarintGo : Nat → Nat → Nat → List Nat → Except String (Nat × List Nat)
  | _, _, _, [] => .error "Unexpected end of buffer in varint"
  | 0, _, _, _ :: _ => .error "Varint overflow"
  | f + 1, res, shift, b :: rest =>
    let res := res ||| ((b &&& 127) <<< shift % 2 ^ 64)
    if b &&& 128 = 0 then .ok (res, rest)
    else if 63 < shift + 7 then .error "Varint overflow"
    else readVarintGo f res (shift + 7) rest

/-- FastDecoder._read_varint, consuming from the remaining input suffix. -/
def readVarint (l : List Nat) : Except String (Nat × List Nat) := readVarintGo 10 0 0 l

/-- Big-endian interpretation of a byte list (model of memcpy plus
lens_be64 on a little-endian host, seen from the wire side). -/
def beToNat (l : List Nat) : Nat := l.foldl (fun a b => 256 * a + b) 0

/-- The 8 big-endian bytes of a uint64 (FastEncoder float serialisation:
memcpy of the double bits, lens_be64, append 8 bytes). -/
def beBytes8 (bits : Nat) : List Nat :=
  [bits / 2 ^ 56 % 256, bits / 2 ^ 48 % 256, bits / 2 ^ 40 % 256,
   bits / 2 ^ 32 % 256, bits / 2 ^ 24 % 256, bits / 2 ^ 16 % 256,
   bits / 2 ^ 8 % 256, bits % 256]

/-- Index of the last occurrence of s (the symbol_map built by the dict
comprehension in FastEncoder.__init__ maps a duplicated symbol to its last
index, later bindings overwriting earlier ones). -/
def lastIdxOf (s : List Nat) : List (List Nat) → Option Nat
  | [] => none
  | x :: rest =>
    match lastIdxOf s rest with
    | some i => some (i + 1)
    | none => if x = s then some 0 else none

/-- Failure modes of FastEncoder._encode_recursive.  unsupported is the
LensEncodeError raised at the dispatch fallthrough; keyError is the plain
Python KeyError raised by the subscript symbol_map[k] in the dict branch
(core.pyx line 141) when the key is absent; overflowError is the
OverflowError raised by the implicit conversion of a Python int outside
the int64 range to the int64_t parameter of c_zigzag_encode; fuelOut is a
model artifact (the recursion fuel, always passed large enough). -/
inductive EncErr where
  | unsupported
  | keyError
  | overflowError
  | fuelOut
  deriving DecidableEq

/-- Result of the modelled encoder: the emitted bytes or the exception. -/
abbrev EncRes := Except EncErr (List Nat)

/-- The symbol_map lookup applied to a dict key: only a str key present in
the symbol table resolves; any other key raises KeyError. -/
def keyIndex (syms : List (List Nat)) : PyValue → Option Nat
  | .vstr s => lastIdxOf s syms
  | _ => none

/-- Encode the members of a list/tuple/set in iteration order (the for
loops of the ARR/TUPLE/SET branches), concatenating the emitted bytes. -/
def encodeSeq (enc : PyValue → EncRes) : List PyValue → EncRes
  | [] => .ok []
  | x :: xs =>
    match enc x with
    | .error e => .error e
    | .ok b =>
      match encodeSeq enc xs with
      | .error e => .error e
      | .ok r => .ok (b ++ r)

/-- Encode the key/value pairs of a dict in iteration order (the dict
branch, core.pyx lines 139-142): per pair a bare T_SYMREF byte, the
varint of the symbol index (KeyError when absent), then the value. -/
def encodePairs (enc : PyValue → EncRes) (syms : List (List Nat)) :
    List (PyValue × PyValue) → EncRes
  | [] => .ok []
  | (k, v) :: rest =>
    match keyIndex syms k with
    | none => .error .keyError
    | some i =>
      match enc v with
      | .error e => .error e
      | .ok vb =>
        match encodePairs enc syms rest with
        | .error e => .error e
        | .ok rb => .ok (8 :: (writeVarint i ++ vb ++ rb))

/-- FastEncoder._encode_recursive (core.pyx lines 102-165), with explicit
recursion fuel (any fuel exceeding the value's nesting depth gives the
code's behaviour).  Dispatch order follows the isinstance chain: None,
True, False, int, float, str, datetime, list, dict, bytes/bytearray,
tuple, set, then the extension fallthrough. -/
def encodeRec (extHandler : Option (PyValue → Option (Nat × List Nat)))
    (syms : List (List Nat)) : Nat → PyValue → EncRes
  | 0, _ => .error .fuelOut
  | f + 1, v =>
    match v with
    | .vnull => .ok [0]
    | .vbool true => .ok [1]
    | .vbool false => .ok [2]
    | .vint n =>
      if n < -(2 ^ 63) ∨ 2 ^ 63 ≤ n then .error .overflowError
      else .ok (3 :: writeVarint (zigzagEncode n))
    | .vfloat bits => .ok (4 :: beBytes8 bits)
    | .vstr s =>
      match lastIdxOf s syms with
      | some i => .ok (8 :: writeVarint i)
      | none => .ok (5 :: (writeVarint s.length ++ s))
    | .vtime ms =>
      if ms < -(2 ^ 63) ∨ 2 ^ 63 ≤ ms then .error .overflowError
      else .ok (10 :: writeVarint (zigzagEncode ms))
    | .vlist xs =>
      match encodeSeq (encodeRec extHandler syms f) xs with
      | .error e => .error e
      | .ok body => .ok (6 :: (writeVarint xs.length ++ body))
    | .vdict ps =>
      match encodePairs (encodeRec extHandler syms f) syms ps with
      | .error e => .error e
      | .ok body => .ok (7 :: (writeVarint ps.length ++ body))
    | .vbytes bs => .ok (9 :: (writeVarint bs.length ++ bs))
    | .vbytearray bs => .ok (9 :: (writeVarint bs.length ++ bs))
    | .vtup xs =>
      match encodeSeq (encodeRec extHandler syms f) xs with
      | .error e => .error e
      | .ok body => .ok (13 :: (writeVarint xs.length ++ body))
    | .vset xs =>
      match encodeSeq (encodeRec extHandler syms f) xs with
      | .error e => .error e
      | .ok body => .ok (12 :: (writeVarint xs.length ++ body))
    | other =>
      match extHandler with
      | some h =>
        match h other with
        | some (eid, payload) =>
          .ok (11 :: (writeVarint eid ++ writeVarint payload.length ++ payload))
        | none => .error .unsupported
      | none => .error .unsupported

/-- Outcome of a decode run.  ok/err mirror the return value and the
LensDecodeError raises of decode_all; pyexc is another Python-level
exception raised through a C-API call (e.g. SystemError from PyList_New
on a negative size); ub marks an access the code performs with no bounds
check (boundscheck=False indexing, an unchecked slice, or a SET_ITEM past
the end of a container) — undefined behaviour at the C level; outOfFuel is
a model artifact (decodeAll passes fuel exceeding any possible iteration
count). -/
inductive DRes where
  | ok (v : PyValue)
  | err (msg : String)
  | pyexc (msg : String)
  | ub (msg : String)
  | outOfFuel

/-- The container object held by a DecodeFrame: None (the pool
initialiser), a PyList with NULL slots, a PyTuple with NULL slots, a set,
or a dict. -/
inductive Container where
  | cnone
  | plist (slots : List (Option PyValue))
  | ptup (slots : List (Option PyValue))
  | pset (elems : List PyValue)
  | pdict (pairs : List (PyValue × PyValue))

/-- DecodeFrame (core.pyx lines 60-75).  remaining is a Py_ssize_t and is
decremented without a floor, so it is an Int; currentKey holds the symbol
string installed by the dict-key path. -/
structure DFrame where
  container : Container
  remaining : Int
  listIdx : Nat
  currentKey : Option (List Nat)
  isDict : Bool

/-- The immutable per-run decoder configuration (constructor arguments of
FastDecoder.__init__ besides the buffer). -/
structure DecCfg where
  symbols : List (List Nat)
  zeroCopy : Bool
  extHook : Option (Nat → List Nat → PyValue)
  tsHook : Option (Nat → PyValue)

/-- The mutable decoder state: the remaining input suffix, the frame
objects by identity (ids 0..31 are the fixed frame_pool array whose slots
are permanently aliased to the same 32 DecodeFrame objects; ids from 32 up
are heap-allocated frames appended as they are created), the stack of
frame ids (head = top), and pool_idx. -/
structure DecState where
  rem : List Nat
  store : List DFrame
  stack : List Nat
  poolIdx : Nat

/-- A pool frame as initialised in __init__: DecodeFrame(None, 0, False). -/
def initFrame : DFrame := ⟨.cnone, 0, 0, none, false⟩

/-- The 32-slot frame pool created by FastDecoder.__init__. -/
def initStore : List DFrame := List.replicate 32 initFrame

/-- PyDict_SetItem: replace the value of an equal existing key (keeping
the original key object and position) or append the new pair. -/
def dictSet (ps : List (PyValue × PyValue)) (k v : PyValue) :
    List (PyValue × PyValue) :=
  if ps.any (fun p => pyBeq p.1 k) then
    ps.map (fun p => if pyBeq p.1 k then (p.1, v) else p)
  else ps ++ [(k, v)]

/-- PySet_Add: adding an equal element is a no-op. -/
def setAdd (xs : List PyValue) (v : PyValue) : List PyValue :=
  if xs.any (fun x => pyBeq x v) then xs else xs ++ [v]

/-- The Python value a closing frame hands to its parent (val =
frame.container).  NULL slots of a partially filled PyList/PyTuple
surface as vhole. -/
def containerToValue : Container → PyValue
  | .cnone => .vnull
  | .plist slots => .vlist (slots.map (fun o => o.getD .vhole))
  | .ptup slots => .vtup (slots.map (fun o => o.getD .vhole))
  | .pset xs => .vset xs
  | .pdict ps => .vdict ps

/-- FastDecoder._fill_container (core.pyx lines 323-339), acting on the
frame with id fid inside the store.  The dict branch writes under the
pending key (the Python None object if no key is pending); the list and
tuple branches are PyList_SET_ITEM / PyTuple_SET_ITEM at list_idx, macros
with no bounds check — writing past the end of the container is undefined
behaviour, modelled as DRes.ub; the final else is PySet_Add.  All branches
then decrement remaining. -/
def fillContainer (store : List DFrame) (fid : Nat) (val : PyValue) :
    Except DRes (List DFrame) :=
  let frame := store.getD fid initFrame
  if frame.isDict then
    match frame.container with
    | .pdict ps =>
      let k : PyValue := match frame.currentKey with
        | some s => .vstr s
        | none => .vnull
      .ok (store.set fid { frame with
        container := .pdict (dictSet ps k val),
        currentKey := none,
        remaining := frame.remaining - 1 })
    | _ => .error (.ub "PyDict_SetItem on a non-dict container")
  else
    match frame.container with
    | .plist slots =>
      if frame.listIdx < slots.length then
        .ok (store.set fid { frame with
          container := .plist (slots.set frame.listIdx (some val)),
          listIdx := frame.listIdx + 1,
          remaining := frame.remaining - 1 })
      else .error (.ub "PyList_SET_ITEM out of bounds")
    | .ptup slots =>
      if frame.listIdx < slots.length then
        .ok (store.set fid { frame with
          container := .ptup (slots.set frame.listIdx (some val)),
          listIdx := frame.listIdx + 1,
          remaining := frame.remaining - 1 })
      else .error (.ub "PyTuple_SET_ITEM out of bounds")
    | .pset xs =>
      .ok (store.set fid { frame with
        container := .pset (setAdd xs val),
        remaining := frame.remaining - 1 })
    | _ => .error (.ub "PySet_Add on a non-set container")

/-- One loop iteration of decode_all either finishes the run or produces
the next state. -/
inductive StepRes where
  | done (r : DRes)
  | next (st : DecState)

/-- DecodeFrame allocation, FastDecoder._push_frame (core.pyx lines
208-214): hand out the pool object at index pool_idx (resetting it in
place — if that object is still referenced from the stack the reset
clobbers the frame in use) or heap-allocate a fresh frame when the pool is
exhausted.  The new frame id is pushed on the stack. -/
def pushFrame (st : DecState) (c : Container) (remaining : Int)
    (isDict : Bool) : DecState :=
  if st.poolIdx ≥ 32 then
    { st with
      store := st.store ++ [⟨c, remaining, 0, none, isDict⟩],
      stack := st.store.length :: st.stack }
  else
    { st with
      store := st.store.set st.poolIdx ⟨c, remaining, 0, none, isDict⟩,
      stack := st.poolIdx :: st.stack,
      poolIdx := st.poolIdx + 1 }

/-- Install a just-decoded scalar or closed container: return it if the
stack is empty, else fill it into the top frame (the tail of each
decode_all iteration, core.pyx lines 318-321). -/
def installVal (st : DecState) (val : PyValue) : StepRes :=
  match st.stack with
  | [] => .done (.ok val)
  | topId :: _ =>
    match fillContainer st.store topId val with
    | .error r => .done r
    | .ok store2 => .next { st with store := store2 }

/-- Decode one tagged value (the tag dispatch of decode_all, core.pyx
lines 247-321).  Checked reads raise the LensDecodeError of the source;
reads the source performs unchecked surface as DRes.ub. -/
def decodeValue (cfg : DecCfg) (st : DecState) : StepRes :=
  match st.rem with
  | [] => .done (.err "Unexpected end of buffer")
  | tag :: r =>
    if tag = 0 then installVal { st with rem := r } .vnull
    else if tag = 1 then installVal { st with rem := r } (.vbool true)
    else if tag = 2 then installVal { st with rem := r } (.vbool false)
    else if tag = 3 then
      match readVarint r with
      | .error e => .done (.err e)
      | .ok (u, r2) => installVal { st with rem := r2 } (.vint (zigzagDecode u))
    else if tag = 4 then
      if r.length < 8 then .done (.err "Unexpected end of buffer for float")
      else installVal { st with rem := r.drop 8 } (.vfloat (beToNat (r.take 8)))
    else if tag = 5 then
      match readVarint r with
      | .error e => .done (.err e)
      | .ok (u, r2) =>
        let ln : Int := toSigned64 u
        if (r2.length : Int) < ln then .done (.err "Unexpected end of buffer for string")
        else if ln < 0 then .done (.ub "PyUnicode_DecodeUTF8 with negative length")
        else installVal { st with rem := r2.drop ln.toNat } (.vstr (r2.take ln.toNat))
    else if tag = 9 then
      match readVarint r with
      | .error e => .done (.err e)
      | .ok (u, r2) =>
        let ln : Int := toSigned64 u
        if (r2.length : Int) < ln then .done (.err "Unexpected end of buffer for bytes")
        else if ln < 0 then .done (.ub "cursor rewound by negative bytes length")
        else
          let payload := r2.take ln.toNat
          installVal { st with rem := r2.drop ln.toNat }
            (if cfg.zeroCopy then .vmemview payload else .vbytes payload)
    else if tag = 8 then
      match readVarint r with
      | .error e => .done (.err e)
      | .ok (u, r2) =>
        match cfg.symbols.get? u with
        | none => .done (.ub "unchecked symbol table access (T_SYMREF)")
        | some s => installVal { st with rem := r2 } (.vstr s)
    else if tag = 10 then
      match readVarint r with
      | .error e => .done (.err e)
      | .ok (u, r2) =>
        let ms : Int := zigzagDecode u
        let varInt : Nat := (ms % (2 ^ 64 : Int)).toNat
        let val : PyValue := match cfg.tsHook with
          | some h => h varInt
          | none => .vtime (Int.ofNat varInt)
        installVal { st with rem := r2 } val
    else if tag = 11 then
      match readVarint r with
      | .error e => .done (.err e)
      | .ok (eid, r2) =>
        match readVarint r2 with
        | .error e => .done (.err e)
        | .ok (u, r3) =>
          let ln : Int := toSigned64 u
          if ln < 0 then .done (.ub "cursor rewound by negative ext length")
          else if (r3.length : Int) < ln then
            .done (.ub "unchecked T_EXT payload slice past end of buffer")
          else
            let payload := r3.take ln.toNat
            let val : PyValue := match cfg.extHook with
              | some h => h eid payload
              | none => .vtup [.vint (Int.ofNat eid), .vmemview payload]
            installVal { st with rem := r3.drop ln.toNat } val
    else if tag = 6 then
      match readVarint r with
      | .error e => .done (.err e)
      | .ok (u, r2) =>
        if u = 0 then installVal { st with rem := r2 } (.vlist [])
        else if 2 ^ 63 ≤ u then .done (.pyexc "SystemError from PyList_New with negative size")
        else .next (pushFrame { st with rem := r2 } (.plist (List.replicate u none)) (u : Int) false)
    else if tag = 7 then
      match readVarint r with
      | .error e => .done (.err e)
      | .ok (u, r2) =>
        if u = 0 then installVal { st with rem := r2 } (.vdict [])
        else .next (pushFrame { st with rem := r2 } (.pdict []) (toSigned64 u) true)
    else if tag = 13 then
      match readVarint r with
      | .error e => .done (.err e)
      | .ok (u, r2) =>
        if 2 ^ 63 ≤ u then .done (.pyexc "SystemError from PyTuple_New with negative size")
        else .next (pushFrame { st with rem := r2 } (.ptup (List.replicate u none)) (u : Int) false)
    else if tag = 12 then
      match readVarint r with
      | .error e => .done (.err e)
      | .ok (u, r2) =>
        .next (pushFrame { st with rem := r2 } (.pset []) (toSigned64 u) false)
    else .done (.err "Unknown tag")

/-- One iteration of the while-True loop of decode_all (core.pyx lines
226-321).  With a non-empty stack: a top frame with remaining == 0 closes
(its container value pops, pool_idx is decremented whenever positive —
regardless of whether the popped frame came from the pool — and the value
returns or fills the new top frame); a dict frame with no pending key
peeks one byte unchecked, demands T_SYMREF, then reads the symbol index
varint and looks the symbol up unchecked.  Otherwise one tagged value is
decoded. -/
def step (cfg : DecCfg) (st : DecState) : StepRes :=
  match st.stack with
  | topId :: rest =>
    let frame := st.store.getD topId initFrame
    if frame.remaining = 0 then
      let val := containerToValue frame.container
      let poolIdx2 := if 0 < st.poolIdx then st.poolIdx - 1 else st.poolIdx
      match rest with
      | [] => .done (.ok val)
      | parentId :: _ =>
        match fillContainer st.store parentId val with
        | .error r => .done r
        | .ok store2 =>
          .next { st with stack := rest, store := store2, poolIdx := poolIdx2 }
    else if frame.isDict && frame.currentKey.isNone then
      match st.rem with
      | [] => .done (.ub "unchecked buffer read of dict-key tag at end of buffer")
      | tag :: r =>
        if tag ≠ 8 then .done (.err "Expected T_SYMREF for dict key")
        else
          match readVarint r with
          | .error e => .done (.err e)
          | .ok (u, r2) =>
            match cfg.symbols.get? u with
            | none => .done (.ub "unchecked symbol table access (dict key)")
            | some s =>
              .next { st with
                rem := r2
                store := st.store.set topId { frame with currentKey := some s } }
    else decodeValue cfg st
  | [] => decodeValue cfg st

/-- The while-True loop with explicit fuel; every iteration either
consumes input or pops the stack, so decodeAll's fuel is never
exhausted. -/
def decodeLoop (cfg : DecCfg) : Nat → DecState → DRes
  | 0, _ => .outOfFuel
  | f + 1, st =>
    match step cfg st with
    | .done r => r
    | .next st2 => decodeLoop cfg f st2

/-- FastDecoder.decode_all on a whole input buffer: the loop starts with
an empty stack, the full buffer, the 32 pooled frames and pool_idx 0. -/
def decodeAll (buf : List Nat) (cfg : DecCfg) : DRes :=
  decodeLoop cfg (2 * buf.length + 2) ⟨buf, initStore, [], 0⟩

/-- k-fold wrapping of a value in singleton lists (a deeply nested input
for exercising the frame pool, whose capacity is 32 frames). -/
def vDeep : Nat → PyValue → PyValue
  | 0, v => v
  | k + 1, v => .vlist [vDeep k v]

/-- The encoding of vDeep k v given the encoding of v: k repetitions of
T_ARR with count 1. -/
def deepBytes : Nat → List Nat → List Nat
  | 0, tail => tail
  | k + 1, tail => 6 :: 1 :: deepBytes k tail

/-! Arithmetic facts about the wire primitives. -/

theorem and_single_bit (x k : Nat) : x &&& 2 ^ k = if x.testBit k then 2 ^ k else 0 := by
  apply Nat.eq_of_testBit_eq
  intro i
  by_cases hik : i = k
  · subst hik
    cases h : x.testBit i <;> simp [Nat.testBit_and, Nat.testBit_two_pow_self, h]
  · have h2 : (2 ^ k).testBit i = false := Nat.testBit_two_pow_of_ne (fun e => hik e.symm)
    cases h : x.testBit k <;> simp [Nat.testBit_and, h2, h]

theorem and128_of_lt {x : Nat} (h : x < 128) : x &&& 128 = 0 := by
  have e : (128 : Nat) = 2 ^ 7 := rfl
  rw [e, and_single_bit, Nat.testBit_lt_two_pow (show x < 2 ^ 7 by omega)]
  simp

theorem and128_of_ge {x : Nat} (h1 : 128 ≤ x) (h2 : x < 256) : x &&& 128 = 128 := by
  have e : (128 : Nat) = 2 ^ 7 := rfl
  have hb : x.testBit 7 = true := by
    rw [Nat.testBit_to_div_mod]
    simp only [decide_eq_true_eq]
    omega
  rw [e, and_single_bit, hb]
  simp

theorem and127_eq_mod (x : Nat) : x &&& 127 = x % 128 := by
  have e : (127 : Nat) = 2 ^ 7 - 1 := rfl
  rw [e, Nat.and_pow_two_sub_one_eq_mod]

theorem xor_allones {w x : Nat} (h : x < 2 ^ w) :
    x ^^^ (2 ^ w - 1) = 2 ^ w - 1 - x := by
  apply Nat.eq_of_testBit_eq
  intro i
  have h2 : 2 ^ w - 1 - x = 2 ^ w - (x + 1) := by omega
  rw [h2, Nat.testBit_two_pow_sub_succ h, Nat.testBit_xor, Nat.testBit_two_pow_sub_one]
  by_cases hi : i < w
  · simp [hi]
  · have hx : x.testBit i = false :=
      Nat.testBit_lt_two_pow
        (Nat.lt_of_lt_of_le h (Nat.pow_le_pow_right (by omega) (by omega)))
    simp [hi, hx]

theorem lor_shift_eq_add {a : Nat} (b s : Nat) (h : a < 2 ^ s) :
    a ||| b <<< s = a + b * 2 ^ s := by
  rw [Nat.shiftLeft_eq, Nat.mul_comm b (2 ^ s), Nat.or_comm, ← Nat.mul_add_lt_is_or h b]
  omega

theorem shift_mod_vanish (w : Nat) {u shift : Nat} (h : u < 2 ^ (w - shift))
    (hs : shift ≤ w) : u <<< shift % 2 ^ w = u <<< shift := by
  apply Nat.mod_eq_of_lt
  rw [Nat.shiftLeft_eq]
  have h1 : u * 2 ^ shift < 2 ^ (w - shift) * 2 ^ shift :=
    (Nat.mul_lt_mul_right (Nat.two_pow_pos shift)).mpr h
  have h2 : (2 : Nat) ^ (w - shift) * 2 ^ shift = 2 ^ w := by
    rw [← Nat.pow_add]
    congr 1
    omega
  omega

theorem readVarintGo_last {u res shift fr : Nat} (rest : List Nat)
    (hu : u < 128) (h2 : u < 2 ^ (64 - shift)) (h3 : shift ≤ 63) (h4 : res < 2 ^ shift)
    (h5 : 7 * fr = 70 - shift) :
    readVarintGo fr res shift (u :: rest) = .ok (res + u * 2 ^ shift, rest) := by
  obtain ⟨fr2, rfl⟩ : ∃ fr2, fr = fr2 + 1 := ⟨fr - 1, by omega⟩
  rw [readVarintGo]
  simp only [and127_eq_mod, Nat.mod_eq_of_lt hu, shift_mod_vanish 64 h2 (by omega),
    lor_shift_eq_add u shift h4, and128_of_lt hu]
  simp

theorem readVarintGo_writeVarintGo (f : Nat) :
    ∀ (u res shift fr : Nat) (rest : List Nat),
    u < 128 ^ (f + 1) → u < 2 ^ (64 - shift) → shift ≤ 63 → res < 2 ^ shift →
    7 * fr = 70 - shift →
    readVarintGo fr res shift (writeVarintGo f u ++ rest) =
      .ok (res + u * 2 ^ shift, rest) := by
  induction f with
  | zero =>
    intro u res shift fr rest h1 h2 h3 h4 h5
    have hu : u < 128 := by simpa using h1
    rw [writeVarintGo]
    exact readVarintGo_last rest hu h2 h3 h4 h5
  | succ f ih =>
    intro u res shift fr rest h1 h2 h3 h4 h5
    by_cases hu : u < 128
    · rw [writeVarintGo, if_neg (by omega)]
      exact readVarintGo_last rest hu h2 h3 h4 h5
    · have hs : shift ≤ 56 := by
        have h7 : (2 : Nat) ^ 7 ≤ u := by omega
        have : (2 : Nat) ^ 7 < 2 ^ (64 - shift) := Nat.lt_of_le_of_lt h7 h2
        have := (Nat.pow_lt_pow_iff_right (by omega : 1 < 2)).mp this
        omega
      obtain ⟨fr2, rfl⟩ : ∃ fr2, fr = fr2 + 1 := ⟨fr - 1, by omega⟩
      rw [writeVarintGo, if_pos (by omega), List.cons_append, readVarintGo]
      have hb127 : (u % 128 + 128) &&& 127 = u % 128 := by
        rw [and127_eq_mod]
        omega
      have hmodlt : u % 128 < 2 ^ (64 - shift) := by
        have : u % 128 < 128 := Nat.mod_lt u (by omega)
        omega
      have hb128 : (u % 128 + 128) &&& 128 = 128 := by
        apply and128_of_ge <;> omega
      simp only [hb127, hb128, shift_mod_vanish 64 hmodlt (by omega),
        lor_shift_eq_add (u % 128) shift h4]
      rw [if_neg (by omega), if_neg (by omega)]
      have e7 : (2 : Nat) ^ (shift + 7) = 2 ^ shift * 128 := by
        rw [Nat.pow_add]
      have happ := ih (u / 128) (res + u % 128 * 2 ^ shift) (shift + 7) fr2 rest
        (by
          rw [Nat.div_lt_iff_lt_mul (by omega : 0 < 128)]
          calc u < 128 ^ (f + 1 + 1) := h1
            _ = 128 ^ (f + 1) * 128 := by rw [Nat.pow_succ]
          )
        (by
          rw [Nat.div_lt_iff_lt_mul (by omega : 0 < 128)]
          calc u < 2 ^ (64 - shift) := h2
            _ = 2 ^ (64 - (shift + 7)) * 128 := by
              rw [show (128 : Nat) = 2 ^ 7 from rfl, ← Nat.pow_add]
              congr 1
              omega
          )
        (by omega)
        (by
          have hm : u % 128 ≤ 127 := by omega
          have hmul : u % 128 * 2 ^ shift ≤ 127 * 2 ^ shift :=
            Nat.mul_le_mul_right _ hm
          omega)
        (by omega)
      rw [happ]
      have : res + u % 128 * 2 ^ shift + u / 128 * 2 ^ (shift + 7) = res + u * 2 ^ shift := by
        rw [e7]
        have hdm : 128 * (u / 128) + u % 128 = u := Nat.div_add_mod u 128
        calc res + u % 128 * 2 ^ shift + u / 128 * (2 ^ shift * 128)
            = res + (128 * (u / 128) + u % 128) * 2 ^ shift := by ring
          _ = res + u * 2 ^ shift := by rw [hdm]
      rw [this]

theorem readVarint_writeVarint (u : Nat) (rest : List Nat) (h : u < 2 ^ 64) :
    readVarint (writeVarint u ++ rest) = .ok (u, rest) := by
  have := readVarintGo_writeVarintGo 10 u 0 0 10 rest
    (by calc u < 2 ^ 64 := h
          _ ≤ 128 ^ (10 + 1) := by norm_num)
    (by simpa using h) (by omega) (by simp) (by omega)
  simpa [readVarint, writeVarint] using this

theorem zigzagEncode_lt (n : Int) : zigzagEncode n < 2 ^ 64 := by
  unfold zigzagEncode
  apply Nat.xor_lt_two_pow
  · exact Nat.mod_lt _ (by omega)
  · split <;> omega

theorem zigzagEncode_of_nonneg {n : Int} (h0 : 0 ≤ n) (h2 : n < 2 ^ 63) :
    zigzagEncode n = 2 * n.toNat := by
  unfold zigzagEncode
  have hmod : n % (2 ^ 64 : Int) = n := by omega
  rw [hmod, if_neg (by omega), Nat.xor_zero, Nat.mod_eq_of_lt (by omega)]

theorem zigzagEncode_of_neg {n : Int} (h1 : -(2 ^ 63) ≤ n) (h0 : n < 0) :
    zigzagEncode n = 2 * (-n - 1).toNat + 1 := by
  unfold zigzagEncode
  have hmod : n % (2 ^ 64 : Int) = n + 2 ^ 64 := by omega
  rw [hmod, if_pos (by omega),
    show 2 * (n + 2 ^ 64 : Int).toNat % 2 ^ 64 = 2 * (n + 2 ^ 64 : Int).toNat - 2 ^ 64
      by omega,
    xor_allones (by omega)]
  omega

theorem zigzagDecode_even {m : Nat} (h : m < 2 ^ 63) : zigzagDecode (2 * m) = (m : Int) := by
  unfold zigzagDecode toSigned64
  have e2 : (2 * m) &&& 1 = 0 := by rw [Nat.and_one_is_mod]; omega
  rw [e2, if_neg (by omega : ¬((0 : Nat) = 1)), Nat.xor_zero, Nat.shiftRight_eq_div_pow,
    show 2 * m / 2 ^ 1 = m by omega, if_pos h]

theorem zigzagDecode_odd {m : Nat} (h : m < 2 ^ 63) :
    zigzagDecode (2 * m + 1) = -(m : Int) - 1 := by
  unfold zigzagDecode toSigned64
  have e2 : (2 * m + 1) &&& 1 = 1 := by rw [Nat.and_one_is_mod]; omega
  rw [e2, if_pos (rfl : (1 : Nat) = 1), Nat.shiftRight_eq_div_pow,
    show (2 * m + 1) / 2 ^ 1 = m by omega,
    xor_allones (show m < 2 ^ 64 by omega), if_neg (by omega)]
  omega

theorem zigzag_roundtrip {n : Int} (h1 : -(2 ^ 63) ≤ n) (h2 : n < 2 ^ 63) :
    zigzagDecode (zigzagEncode n) = n := by
  by_cases hn : 0 ≤ n
  · rw [zigzagEncode_of_nonneg hn h2, zigzagDecode_even (by omega)]
    omega
  · rw [zigzagEncode_of_neg h1 (by omega), zigzagDecode_odd (by omega)]
    omega

/-- The value the varint accumulator collects from a byte sequence
starting at a given shift: each byte contributes (b & 0x7F) << shift
reduced mod 2^64 (the machine OR discards higher bits), shifts advancing
by 7. -/
def varintAcc : Nat → List Nat → Nat
  | _, [] => 0
  | shift, b :: rest => ((b &&& 127) <<< shift % 2 ^ 64) ||| varintAcc (shift + 7) rest

theorem readVarintGo_overflow :
    ∀ (c rest : List Nat) (res shift fr : Nat),
    (∀ b ∈ c, b &&& 128 ≠ 0) → 7 * c.length + shift = 70 → shift ≤ 63 →
    c.length ≤ fr →
    readVarintGo fr res shift (c ++ rest) = .error "Varint overflow" := by
  intro c
  induction c with
  | nil =>
    intro rest res shift fr hc hlen hs hf
    simp at hlen
    omega
  | cons b c ih =>
    intro rest res shift fr hc hlen hs hf
    simp only [List.length_cons] at hlen hf
    obtain ⟨fr2, rfl⟩ : ∃ fr2, fr = fr2 + 1 := ⟨fr - 1, by omega⟩
    rw [List.cons_append]
    show readVarintGo (fr2 + 1) res shift (b :: (c ++ rest)) = _
    rw [readVarintGo]
    have hb : ¬(b &&& 128 = 0) := hc b (by simp)
    rw [if_neg hb]
    by_cases hs2 : 63 < shift + 7
    · rw [if_pos hs2]
    · rw [if_neg hs2]
      exact ih rest _ (shift + 7) fr2 (fun x hx => hc x (by simp [hx])) (by omega)
        (by omega) (by omega)

theorem readVarintGo_accum :
    ∀ (c : List Nat) (b : Nat) (rest : List Nat) (res shift fr : Nat),
    (∀ x ∈ c, x &&& 128 ≠ 0) → b &&& 128 = 0 →
    7 * c.length + shift ≤ 63 → c.length + 1 ≤ fr →
    readVarintGo fr res shift (c ++ b :: rest) =
      .ok (res ||| varintAcc shift (c ++ [b]), rest) := by
  intro c
  induction c with
  | nil =>
    intro b rest res shift fr hc hb hlen hf
    obtain ⟨fr2, rfl⟩ : ∃ fr2, fr = fr2 + 1 := ⟨fr - 1, by omega⟩
    simp only [List.nil_append]
    rw [readVarintGo, if_pos hb]
    simp [varintAcc]
  | cons x c ih =>
    intro b rest res shift fr hc hb hlen hf
    simp only [List.length_cons] at hlen hf
    obtain ⟨fr2, rfl⟩ : ∃ fr2, fr = fr2 + 1 := ⟨fr - 1, by omega⟩
    rw [List.cons_append]
    show readVarintGo (fr2 + 1) res shift (x :: (c ++ b :: rest)) = _
    rw [readVarintGo]
    have hx : ¬(x &&& 128 = 0) := hc x (by simp)
    rw [if_neg hx, if_neg (by omega : ¬(63 < shift + 7))]
    rw [ih b rest _ (shift + 7) fr2 (fun y hy => hc y (by simp [hy])) hb (by omega) (by omega)]
    rw [List.cons_append]
    show _ = Except.ok (res ||| varintAcc shift (x :: (c ++ [b])), rest)
    rw [varintAcc, Nat.or_assoc]

theorem readVarint_writeVarint_nil (u : Nat) (h : u < 2 ^ 64) :
    readVarint (writeVarint u) = .ok (u, []) := by
  have := readVarint_writeVarint u [] h
  simpa using this

theorem toSigned64_of_lt {u : Nat} (h : u < 2 ^ 63) : toSigned64 u = (u : Int) := by
  rw [toSigned64, if_pos h]

theorem decodeLoop_done {cfg : DecCfg} {st : DecState} {r : DRes} (f : Nat)
    (h : step cfg st = .done r) : decodeLoop cfg (f + 1) st = r := by
  rw [decodeLoop, h]

/-- C8: for every signed 64-bit integer n and any symbol table, the
encoder emits the T_INT tag followed by the varint of the ZigZag image of
n, and the decoder returns exactly n.  (The claim's round-trip for the
whole int64 range, through the modelled arithmetic-shift ZigZag map and
the little-endian base-128 varint.) -/
theorem int_roundtrip_exact (n : Int) (syms : List (List Nat)) (f : Nat)
    (h1 : -(2 ^ 63) ≤ n) (h2 : n < 2 ^ 63) :
    encodeRec none syms (f + 1) (.vint n) = .ok (3 :: writeVarint (zigzagEncode n)) ∧
    decodeAll (3 :: writeVarint (zigzagEncode n)) ⟨syms, false, none, none⟩ =
      .ok (.vint n) := by
  constructor
  · rw [encodeRec]
    rw [if_neg (by omega)]
  · have hstep : step ⟨syms, false, none, none⟩
        ⟨3 :: writeVarint (zigzagEncode n), initStore, [], 0⟩ = .done (.ok (.vint n)) := by
      rw [step, decodeValue]
      simp only [readVarint_writeVarint_nil _ (zigzagEncode_lt n)]
      rw [zigzag_roundtrip h1 h2]
      rfl
    rw [decodeAll,
      show 2 * (3 :: writeVarint (zigzagEncode n)).length + 2 =
        (2 * (writeVarint (zigzagEncode n)).length + 3) + 1 by simp; ring,
      decodeLoop_done _ hstep]

/-- C8 witness: the round-trip at n = -3 with an empty symbol table. -/
theorem int_roundtrip_exact_witness :
    encodeRec none [] 1 (.vint (-3)) = .ok (3 :: writeVarint (zigzagEncode (-3))) ∧
    decodeAll (3 :: writeVarint (zigzagEncode (-3))) ⟨[], false, none, none⟩ =
      .ok (.vint (-3)) :=
  int_roundtrip_exact (-3) [] 0 (by omega) (by omega)

/-- C10: the encoder's bytes/bytearray branch treats a bytearray exactly
like the equal bytes object (same T_BYTES tag, length varint and raw
payload), and with zero_copy off the decoder returns an owned immutable
bytes value — so a bytearray round-trips to bytes, not to a bytearray. -/
theorem bytearray_roundtrips_as_bytes (d : List Nat) (syms : List (List Nat))
    (f : Nat) (h : d.length < 2 ^ 63) :
    encodeRec none syms (f + 1) (.vbytearray d) = encodeRec none syms (f + 1) (.vbytes d) ∧
    encodeRec none syms (f + 1) (.vbytearray d) = .ok (9 :: (writeVarint d.length ++ d)) ∧
    decodeAll (9 :: (writeVarint d.length ++ d)) ⟨syms, false, none, none⟩ =
      .ok (.vbytes d) := by
  refine ⟨rfl, rfl, ?_⟩
  have hstep : step ⟨syms, false, none, none⟩
      ⟨9 :: (writeVarint d.length ++ d), initStore, [], 0⟩ = .done (.ok (.vbytes d)) := by
    rw [step, decodeValue]
    simp only [readVarint_writeVarint d.length d (by omega)]
    rw [toSigned64_of_lt h]
    rw [if_neg (by omega), if_neg (by omega)]
    simp [installVal]
  rw [decodeAll,
    show 2 * (9 :: (writeVarint d.length ++ d)).length + 2 =
      (2 * (writeVarint d.length ++ d).length + 3) + 1 by simp; ring,
    decodeLoop_done _ hstep]

/-- C10 witness: a concrete bytearray round-trips to bytes. -/
theorem bytearray_roundtrips_as_bytes_witness :
    encodeRec none [] 1 (.vbytearray [7, 8]) = encodeRec none [] 1 (.vbytes [7, 8]) ∧
    encodeRec none [] 1 (.vbytearray [7, 8]) = .ok (9 :: (writeVarint 2 ++ [7, 8])) ∧
    decodeAll (9 :: (writeVarint 2 ++ [7, 8])) ⟨[], false, none, none⟩ =
      .ok (.vbytes [7, 8]) :=
  bytearray_roundtrips_as_bytes [7, 8] [] 0 (by norm_num)

/-- C9: with symbol table ["id", "name"] (UTF-8 [105,100] and
[110,97,109,101]), encoding the map from "id" to 7 and "name" to "x"
produces exactly the eleven bytes 07 02 08 00 03 0E 08 01 05 01 78 —
each key a bare SYMREF tag plus varint index with no separator — and
decoding those bytes with the same table restores the map. -/
theorem seed_map_eleven_bytes :
    encodeRec none [[105, 100], [110, 97, 109, 101]] 2
      (.vdict [(.vstr [105, 100], .vint 7), (.vstr [110, 97, 109, 101], .vstr [120])]) =
      .ok [7, 2, 8, 0, 3, 14, 8, 1, 5, 1, 120] ∧
    decodeAll [7, 2, 8, 0, 3, 14, 8, 1, 5, 1, 120]
      ⟨[[105, 100], [110, 97, 109, 101]], false, none, none⟩ =
      .ok (.vdict [(.vstr [105, 100], .vint 7), (.vstr [110, 97, 109, 101], .vstr [120])]) :=
  ⟨rfl, rfl⟩

theorem encodePairs_keys {enc : PyValue → EncRes} {syms : List (List Nat)} :
    ∀ (ps : List (PyValue × PyValue)) (bs : List Nat),
    encodePairs enc syms ps = .ok bs → ∀ p ∈ ps, (keyIndex syms p.1).isSome := by
  intro ps
  induction ps with
  | nil =>
    intro bs h p hp
    simp at hp
  | cons q ps ih =>
    intro bs h p hp
    obtain ⟨k, v⟩ := q
    rw [encodePairs] at h
    cases hk : keyIndex syms k with
    | none =>
      rw [hk] at h
      exact absurd h (by simp)
    | some i =>
      rw [hk] at h
      rcases List.mem_cons.mp hp with rfl | hp2
      · simp [hk]
      · cases hv : enc v with
        | error e =>
          rw [hv] at h
          exact absurd h (by simp)
        | ok vb =>
          rw [hv] at h
          cases hr : encodePairs enc syms ps with
          | error e =>
            rw [hr] at h
            exact absurd h (by simp)
          | ok rb =>
            exact ih rb hr p hp2

/-- C7 (amended): with no extension handler, a non-builtin value fails
with the unsupported-type LensEncodeError at the dispatch fallthrough; a
map whose first key does not resolve in the symbol table fails — but with
a plain Python KeyError from the symbol_map subscript, not a Lens
"unknown symbol" encode error; and whenever a dict encodes successfully,
every one of its keys was a string resolving in the symbol table (so
every non-symbol map key causes an encode failure). -/
theorem encode_failure_modes :
    (∀ (f : Nat) (syms : List (List Nat)) (oid : Nat),
      encodeRec none syms (f + 1) (.vobj oid) = .error .unsupported) ∧
    (∀ (f : Nat) (extH : Option (PyValue → Option (Nat × List Nat)))
      (syms : List (List Nat)) (k v : PyValue) (ps : List (PyValue × PyValue)),
      keyIndex syms k = none →
      encodeRec extH syms (f + 1) (.vdict ((k, v) :: ps)) = .error .keyError) ∧
    (∀ (f : Nat) (extH : Option (PyValue → Option (Nat × List Nat)))
      (syms : List (List Nat)) (ps : List (PyValue × PyValue)) (bs : List Nat),
      encodeRec extH syms (f + 1) (.vdict ps) = .ok bs →
      ∀ p ∈ ps, (keyIndex syms p.1).isSome) := by
  refine ⟨fun f syms oid => rfl, ?_, ?_⟩
  · intro f extH syms k v ps hk
    rw [encodeRec, encodePairs, hk]
  · intro f extH syms ps bs h p hp
    rw [encodeRec] at h
    cases hpair : encodePairs (encodeRec extH syms f) syms ps with
    | error e =>
      rw [hpair] at h
      exact absurd h (by simp)
    | ok body =>
      exact encodePairs_keys ps body hpair p hp

/-- C7 witness: the three failure modes at concrete inputs — a plain
object with no handler, a dict with an integer key, and a successfully
encoded dict whose key resolves. -/
theorem encode_failure_modes_witness :
    encodeRec none [] 1 (.vobj 5) = .error .unsupported ∧
    encodeRec none [] 1 (.vdict [(.vint 0, .vnull)]) = .error .keyError ∧
    ∀ p ∈ [((PyValue.vstr [97]), PyValue.vnull)], (keyIndex [[97]] p.1).isSome :=
  ⟨encode_failure_modes.1 0 [] 5,
   encode_failure_modes.2.1 0 none [] (.vint 0) .vnull [] rfl,
   encode_failure_modes.2.2 1 none [[97]] [((PyValue.vstr [97]), PyValue.vnull)]
     [7, 1, 8, 0, 0] rfl⟩

/-- C7 counterexample: encoding a map whose key "z" is missing from the
symbol table fails with the Python KeyError of the symbol_map subscript,
which is not the LensEncodeError the claim requires ("unknown symbol"
encode error). -/
theorem map_key_failure_not_lens_error :
    encodeRec none [] 2 (.vdict [(.vstr [122], .vnull)]) = .error .keyError ∧
    EncErr.keyError ≠ EncErr.unsupported :=
  ⟨rfl, by decide⟩

/-- C3 counterexample: the T_INT payload 80 80 80 80 80 80 80 80 80 02 is
a 10-byte varint denoting 2^64 (bit-length 65, contributed above bit 63
by the final byte), yet decode returns the silently truncated value 0
instead of failing with a varint-overflow decode error. -/
theorem ten_byte_varint_high_bits_truncated :
    decodeAll [3, 128, 128, 128, 128, 128, 128, 128, 128, 128, 2]
      ⟨[], false, none, none⟩ = .ok (.vint 0) ∧
    readVarint [128, 128, 128, 128, 128, 128, 128, 128, 128, 2] = .ok (0, []) :=
  ⟨rfl, rfl⟩

/-- C3 (amended): _read_varint raises varint overflow exactly when the
shift counter would exceed 63, i.e. when the first ten bytes all carry
the continuation bit; a varint whose tenth byte clears the continuation
bit is accepted no matter which bits it sets, its contribution at shift
63 taken modulo 2^64 so that bits above bit 63 are silently discarded. -/
theorem varint_overflow_boundary :
    (∀ (c rest : List Nat), c.length = 10 → (∀ b ∈ c, b &&& 128 ≠ 0) →
      readVarint (c ++ rest) = .error "Varint overflow") ∧
    (∀ (c : List Nat) (b : Nat) (rest : List Nat),
      c.length = 9 → (∀ x ∈ c, x &&& 128 ≠ 0) → b &&& 128 = 0 →
      readVarint (c ++ b :: rest) = .ok (varintAcc 0 (c ++ [b]), rest)) := by
  constructor
  · intro c rest hlen hc
    rw [readVarint]
    exact readVarintGo_overflow c rest 0 0 10 hc (by omega) (by omega) (by omega)
  · intro c b rest hlen hc hb
    rw [readVarint]
    rw [readVarintGo_accum c b rest 0 0 10 hc hb (by omega) (by omega)]
    simp

/-- C3 amended witness: ten continuation bytes overflow; nine
continuation bytes followed by the clear byte 0x02 are accepted, the
final byte's contribution 2 << 63 collapsing to 0 modulo 2^64. -/
theorem varint_overflow_boundary_witness :
    readVarint (List.replicate 10 128 ++ []) = .error "Varint overflow" ∧
    readVarint (List.replicate 9 128 ++ 2 :: []) =
      .ok (varintAcc 0 (List.replicate 9 128 ++ [2]), []) :=
  ⟨varint_overflow_boundary.1 (List.replicate 10 128) [] (by decide) (by decide),
   varint_overflow_boundary.2 (List.replicate 9 128) 2 [] (by decide) (by decide)
     (by decide)⟩

/-- C2: the decoder's dict-key path reads the tag byte buffer[pos] with
no bounds check (boundscheck=False), so an input that ends where a map
key is expected is dereferenced out of bounds instead of failing with a
truncated-input LensDecodeError; likewise the T_EXT branch slices its
payload with no end-of-buffer check. -/
theorem truncated_reads_not_all_checked :
    decodeAll [7, 1] ⟨[], false, none, none⟩ =
      .ub "unchecked buffer read of dict-key tag at end of buffer" ∧
    decodeAll [11, 0, 5] ⟨[], false, none, none⟩ =
      .ub "unchecked T_EXT payload slice past end of buffer" :=
  ⟨rfl, rfl⟩

/-- C6: the primary decoder never compares a symbol index against the
table length — both the standalone T_SYMREF branch and the dict-key
lookup subscript symbols[i] compile to an unchecked PyList_GET_ITEM
(boundscheck=False), so an out-of-range index is an out-of-bounds read,
not a "symbol index out of range" decode error. -/
theorem symbol_index_unchecked :
    decodeAll [8, 0] ⟨[], false, none, none⟩ =
      .ub "unchecked symbol table access (T_SYMREF)" ∧
    decodeAll [7, 1, 8, 0, 0] ⟨[], false, none, none⟩ =
      .ub "unchecked symbol table access (dict key)" :=
  ⟨rfl, rfl⟩

/-- C5: the T_TIME branch assigns the signed ZigZag-decoded millisecond
count to the uint64_t local var_int, so a negative timestamp (-1 ms here)
reaches ts_hook as 2^64 - 1 instead of the signed value, and the default
path divides the same unsigned quantity by 1000. -/
theorem ts_hook_receives_unsigned_ms :
    decodeAll [10, 1] ⟨[], false, none, some (fun ms => .vint (Int.ofNat ms))⟩ =
      .ok (.vint (2 ^ 64 - 1)) ∧
    ((2 : Int) ^ 64 - 1 ≠ -1) ∧
    zigzagDecode 1 = -1 :=
  ⟨rfl, by decide, rfl⟩

set_option maxRecDepth 40000 in
/-- C1: round-trip fails past the frame pool capacity.  The value below
nests 33 container levels (31 singleton lists around a two-element list
of singleton lists); its encoding is accepted by the encoder, but
decoding it reclaims pooled frame 31 while that frame is still on the
stack (pop of a heap frame decrements pool_idx), resets it, and the
subsequent close performs PyList_SET_ITEM past the end of the clobbered
one-element list — an out-of-bounds write, not the value tree.  At depth
32 (one level less) the same shape still round-trips. -/
theorem deep_roundtrip_broken_past_pool :
    encodeRec none [] 40 (vDeep 31 (.vlist [.vlist [.vint 1], .vlist [.vint 2]])) =
      .ok (deepBytes 31 [6, 2, 6, 1, 3, 2, 6, 1, 3, 4]) ∧
    decodeAll (deepBytes 31 [6, 2, 6, 1, 3, 2, 6, 1, 3, 4]) ⟨[], false, none, none⟩ =
      .ub "PyList_SET_ITEM out of bounds" ∧
    decodeAll (deepBytes 30 [6, 2, 6, 1, 3, 2, 6, 1, 3, 4]) ⟨[], false, none, none⟩ =
      .ok (vDeep 30 (.vlist [.vlist [.vint 1], .vlist [.vint 2]])) :=
  ⟨rfl, rfl, rfl⟩

set_option maxRecDepth 40000 in
/-- C4: decoding correctness does depend on the pool size.  With 33
frames live, _push_frame heap-allocates frame 33; when that heap frame
pops, decode_all decrements pool_idx from 32 to 31, handing the pooled
frame object 31 — still referenced from stack position 32 — to the next
push, which resets it in place.  The still-open parent is clobbered and
the following close writes out of bounds through PyTuple_SET_ITEM. -/
theorem frame_pool_reuse_clobbers_live_frame :
    encodeRec none [] 40 (vDeep 31 (.vlist [.vtup [.vbool true], .vtup [.vbool false]])) =
      .ok (deepBytes 31 [6, 2, 13, 1, 1, 13, 1, 2]) ∧
    decodeAll (deepBytes 31 [6, 2, 13, 1, 1, 13, 1, 2]) ⟨[], false, none, none⟩ =
      .ub "PyTuple_SET_ITEM out of bounds" ∧
    decodeAll (deepBytes 30 [6, 2, 13, 1, 1, 13, 1, 2]) ⟨[], false, none, none⟩ =
      .ok (vDeep 30 (.vlist [.vtup [.vbool true], .vtup [.vbool false]])) :=
  ⟨rfl, rfl, rfl⟩
